import Mathlib

/-!
Formal model of the CipherVault keystore subsystem
(`py.projects/cipher-vault/after/vault.py`).

The vault composes externally supplied cryptographic primitives (PBKDF2,
Fernet, ChaCha20Poly1305 from the `cryptography` package).  Those primitives
are not part of the repository; they are modelled here symbolically by their
contract: an authenticated-encryption ciphertext is an opaque value carrying
the key and plaintext it was built from, decryption succeeds exactly when the
same key is supplied, and the key-derivation function is an ideal
(collision-free) function of passphrase and salt.  Everything else — the
keystore document shape, the envelope store, user registration,
authentication, algorithm rotation and the cipher dispatch — is translated
directly from the Python source.  Python `dict`s preserve insertion order and
update-in-place, so they are modelled as association lists with an
order-preserving `assocSet`.
-/

namespace CipherVault

/-- Supported algorithm identifiers, `ALGORITHMS = ['fernet', 'chacha20']`
(vault.py line 39). -/
def ALGORITHMS : List String := ["fernet", "chacha20"]

/-- KDF iteration count, `KDF_ITERATIONS = 200_000` (vault.py line 42). -/
def KDF_ITERATIONS : Nat := 200000

/-- Symbolic value of `hashlib.sha256(token).hexdigest()` used by `hash_fp`
(vault.py lines 63-66); SHA-256 is modelled as an ideal (collision-free)
hash, so the hex digest is represented by the hashed token itself. -/
inductive FpHash where
  | sha256 (token : String)
deriving DecidableEq, Repr

/-- Translation of `hash_fp` (vault.py lines 63-66). -/
def hash_fp (token : String) : FpHash := FpHash.sha256 token

/-- Model of `secrets.token_bytes(n)`: `n` bytes drawn from an explicit
randomness source. -/
def token_bytes (n : Nat) (rand : Nat → Nat) : List Nat :=
  (List.range n).map (fun i => rand i % 256)

/-- Translation of `_ensure_salt` (vault.py lines 93-99).  The salt file is
passed in as `Option` (contents if it exists); the result is the salt used
together with the salt-file contents after the call. -/
def _ensure_salt (saltFile : Option (List Nat)) (rand : Nat → Nat) :
    List Nat × Option (List Nat) :=
  match saltFile with
  | some s => (s, some s)
  | none =>
    let s := token_bytes 16 rand
    (s, some s)

/-- Symbolic 32-byte master key produced by PBKDF2-HMAC-SHA256 with
`length=32` (vault.py lines 105-112); the KDF is modelled as an ideal
injective function of `(passphrase, salt)`. -/
inductive MasterKey where
  | pbkdf2 (passphrase : String) (salt : List Nat)
deriving DecidableEq, Repr

/-- Translation of `derive_master_key` (vault.py lines 102-112), with the
salt already obtained from `_ensure_salt`. -/
def derive_master_key (passphrase : String) (salt : List Nat) : MasterKey :=
  MasterKey.pbkdf2 passphrase salt

/-- Symbolic base64 text (`base64.b64encode` output or an arbitrary,
possibly malformed, stored string). -/
inductive B64 where
  | enc (bytes : List Nat)
  | malformed (s : String)
deriving DecidableEq, Repr

/-- Model of `base64.b64encode` (injective on byte strings). -/
def b64encode (bytes : List Nat) : B64 := B64.enc bytes

/-- Model of `base64.b64decode`, failing on malformed input (the caller
`_get_raw_key_for_user` catches the failure and returns `None`). -/
def b64decode : B64 → Option (List Nat)
  | B64.enc bs => some bs
  | B64.malformed _ => none

/-- A `users` record: `{fp_hash: ..., created: ...}` (vault.py line 180). -/
structure UserInfo where
  fp_hash : FpHash
  created : String
deriving DecidableEq, Repr

/-- A `keys` record: `{enc_key: ..., algo_history: ..., created: ...}`
(vault.py lines 186-190).  `enc_key` is `Option` because the stored dict may
lack the field or hold an empty value (`entry.get('enc_key')` plus the
falsiness check in `_get_raw_key_for_user`). -/
structure KeyInfo where
  enc_key : Option B64
  algo_history : List String
  created : String
deriving DecidableEq, Repr

/-- One `rotation_history` entry `{'when': ..., 'from': ..., 'to': ...}`
(vault.py line 244); `when`/`from` are Lean keywords, hence the trailing
underscores. -/
structure RotEntry where
  when_ : String
  from_ : String
  to_ : String
deriving DecidableEq, Repr

/-- The decrypted keystore document (vault.py lines 122-128).  Python dicts
preserve insertion order, so the two maps are association lists.  A missing
`rotation_history` key behaves as `[]` (`ks.setdefault('rotation_history',
[])`), which the list field models directly. -/
structure Keystore where
  users : List (String × UserInfo)
  keys : List (String × KeyInfo)
  current_algo : String
  rotation_history : List RotEntry
deriving DecidableEq, Repr

/-- Ordered association-list lookup (Python `d.get(k)`). -/
def assocGet? {α : Type} : List (String × α) → String → Option α
  | [], _ => none
  | (k, v) :: rest, key => if k = key then some v else assocGet? rest key

/-- Ordered association-list update (Python `d[k] = v`): replaces in place,
appends when the key is new. -/
def assocSet {α : Type} : List (String × α) → String → α → List (String × α)
  | [], key, v => [(key, v)]
  | (k, w) :: rest, key, v =>
    if k = key then (key, v) :: rest else (k, w) :: assocSet rest key v

/-- The default empty document returned by `load_keystore_decrypted` when no
usable envelope exists: `{'users': {}, 'keys': {}, 'current_algo':
ALGORITHMS[0]}` (vault.py lines 152, 155, 162); an absent
`rotation_history` key behaves as the empty list. -/
def defaultKeystore : Keystore :=
  { users := [], keys := [], current_algo := ALGORITHMS.headD "",
    rotation_history := [] }

/-- Plaintext bytes inside the master-key envelope: either the JSON
serialization of a keystore document (`json.dumps(keystore)`, injective and
reversed exactly by `json.loads`) or bytes that do not parse as JSON. -/
inductive PlainData where
  | doc (ks : Keystore)
  | raw (s : String)
deriving DecidableEq, Repr

/-- Symbolic ciphertext produced by the master `Fernet` object:
authenticated encryption, so an honest token carries its key, the encryption
randomness and the plaintext, and anything else fails authentication. -/
inductive MasterCT where
  | tok (key : MasterKey) (nonce : Nat) (data : PlainData)
  | junk (s : String)
deriving DecidableEq, Repr

/-- Model of `master_fernet.encrypt` (authenticated, randomized). -/
def master_encrypt (key : MasterKey) (nonce : Nat) (d : PlainData) : MasterCT :=
  MasterCT.tok key nonce d

/-- Model of `master_fernet.decrypt`: succeeds exactly on an honest token
built under the same key; `none` is the `InvalidToken` failure. -/
def master_decrypt (key : MasterKey) : MasterCT → Option PlainData
  | MasterCT.tok k _ d => if k = key then some d else none
  | MasterCT.junk _ => none

/-- On-disk state of the keystore file as `load_keystore_decrypted`
distinguishes it: absent, present but not parsable as JSON (`load_json`
returns `{}`), parsable without a `payload` field, or a versioned envelope
with a payload string. -/
inductive DiskKeystore where
  | absent
  | unparsable (s : String)
  | noPayload
  | envelope (payload : MasterCT)
deriving DecidableEq, Repr

/-- Error taxonomy of the vault's failure paths.  `wrongPassphrase` is the
`ValueError("Master passphrase doesn't match stored keystore.")` raised at
vault.py line 160; `invalidToken` is `cryptography`'s `InvalidToken`;
`decryptError` is the generic exception path of `chacha_decrypt`;
`missingKey` is the "No key for this user." path; `unsupportedAlgo` is the
"Unsupported algorithm." path. -/
inductive VErr where
  | wrongPassphrase
  | invalidToken
  | decryptError
  | missingKey
  | unsupportedAlgo
deriving DecidableEq, Repr

/-- Translation of `save_keystore_encrypted` (vault.py lines 139-146): the
document is serialized, encrypted under the master key, and written as the
envelope `{'v': 1, 'payload': token}`. -/
def save_keystore_encrypted (ks : Keystore) (masterKey : MasterKey)
    (nonce : Nat) : DiskKeystore :=
  DiskKeystore.envelope (master_encrypt masterKey nonce (PlainData.doc ks))

/-- Translation of `load_keystore_decrypted` (vault.py lines 149-162):
missing file, unparsable envelope and missing payload all yield the default
document; an authentication failure of the payload raises the distinguished
wrong-passphrase error; decrypted bytes that fail to parse as JSON fall into
the broad `except Exception` and yield the default document. -/
def load_keystore_decrypted (masterKey : MasterKey) (disk : DiskKeystore) :
    Except VErr Keystore :=
  match disk with
  | DiskKeystore.absent => Except.ok defaultKeystore
  | DiskKeystore.unparsable _ => Except.ok defaultKeystore
  | DiskKeystore.noPayload => Except.ok defaultKeystore
  | DiskKeystore.envelope ct =>
    match master_decrypt masterKey ct with
    | none => Except.error VErr.wrongPassphrase
    | some (PlainData.doc ks) => Except.ok ks
    | some (PlainData.raw _) => Except.ok defaultKeystore

/-- C1: an envelope created under master key K1, opened with a master key
K2 whose decryption fails authentication (any K2 ≠ K1 under the ideal AEAD
model), yields the distinguished wrong-passphrase error and never the
default empty document. -/
theorem load_wrong_master_key_rejected (ks : Keystore) (k1 k2 : MasterKey)
    (nonce : Nat) (hne : k2 ≠ k1) :
    load_keystore_decrypted k2 (save_keystore_encrypted ks k1 nonce) =
      Except.error VErr.wrongPassphrase ∧
    ∀ d : Keystore,
      load_keystore_decrypted k2 (save_keystore_encrypted ks k1 nonce) ≠
        Except.ok d := by
  have h : load_keystore_decrypted k2 (save_keystore_encrypted ks k1 nonce) =
      Except.error VErr.wrongPassphrase := by
    simp [load_keystore_decrypted, save_keystore_encrypted, master_encrypt,
      master_decrypt, hne.symm]
  exact ⟨h, fun d hd => by rw [h] at hd; exact Except.noConfusion hd⟩

/-- Witness for C1 at concrete passphrases "p1" ≠ "p2" over the same salt. -/
theorem load_wrong_master_key_rejected_witness :
    derive_master_key "p2" [7] ≠ derive_master_key "p1" [7] ∧
    load_keystore_decrypted (derive_master_key "p2" [7])
        (save_keystore_encrypted defaultKeystore (derive_master_key "p1" [7]) 0) =
      Except.error VErr.wrongPassphrase :=
  ⟨by decide,
    (load_wrong_master_key_rejected defaultKeystore
      (derive_master_key "p1" [7]) (derive_master_key "p2" [7]) 0 (by decide)).1⟩

/-- C2: encrypting any keystore document under the master key derived from a
passphrase and decrypting under the same master key reproduces the document
exactly. -/
theorem keystore_roundtrip (passphrase : String) (salt : List Nat)
    (nonce : Nat) (ks : Keystore) :
    load_keystore_decrypted (derive_master_key passphrase salt)
        (save_keystore_encrypted ks (derive_master_key passphrase salt) nonce) =
      Except.ok ks := by
  simp [load_keystore_decrypted, save_keystore_encrypted, master_encrypt,
    master_decrypt]

/-- C10: when the envelope parses and its payload decrypts under the
supplied master key but the decrypted bytes are not JSON, the loader returns
the default empty document instead of raising. -/
theorem load_corrupt_inner_payload_defaults (masterKey : MasterKey)
    (nonce : Nat) (s : String) :
    load_keystore_decrypted masterKey
        (DiskKeystore.envelope (master_encrypt masterKey nonce (PlainData.raw s))) =
      Except.ok defaultKeystore := by
  simp [load_keystore_decrypted, master_encrypt, master_decrypt]

/-- Symbolic ciphertext string produced by the per-user cipher backends.
Both backends emit text (a Fernet token, or base64 of nonce‖ciphertext for
ChaCha20Poly1305); under the ideal-AEAD model an honest ciphertext carries
its producing backend, key, encryption randomness and plaintext, and
everything else (tampered or foreign bytes) fails authentication. -/
inductive CText where
  | fernetTok (key : List Nat) (nonce : Nat) (pt : String)
  | chachaTok (key : List Nat) (nonce : Nat) (pt : String)
  | junk (s : String)
deriving DecidableEq, Repr

/-- Translation of `fernet_encrypt` (vault.py lines 253-258): the raw key is
reinterpreted as the Fernet key; encryption is randomized and authenticated. -/
def fernet_encrypt (raw_key : List Nat) (nonce : Nat) (plaintext : String) :
    CText :=
  CText.fernetTok raw_key nonce plaintext

/-- Translation of `fernet_decrypt` (vault.py lines 261-265): succeeds
exactly on a Fernet token built under the same key; everything else raises
`InvalidToken`. -/
def fernet_decrypt (raw_key : List Nat) : CText → Except VErr String
  | CText.fernetTok k _ pt =>
    if k = raw_key then Except.ok pt else Except.error VErr.invalidToken
  | _ => Except.error VErr.invalidToken

/-- Translation of `chacha_encrypt` (vault.py lines 268-272): a fresh
12-byte nonce is prepended to the AEAD ciphertext and the pair is base64
encoded. -/
def chacha_encrypt (raw_key : List Nat) (nonce : Nat) (plaintext : String) :
    CText :=
  CText.chachaTok raw_key nonce plaintext

/-- Translation of `chacha_decrypt` (vault.py lines 275-281): succeeds
exactly on a ChaCha20Poly1305 ciphertext built under the same key; a wrong
key, tampering or foreign bytes fail the authentication tag and raise (the
caller reports this as a decryption error). -/
def chacha_decrypt (raw_key : List Nat) : CText → Except VErr String
  | CText.chachaTok k _ pt =>
    if k = raw_key then Except.ok pt else Except.error VErr.decryptError
  | _ => Except.error VErr.decryptError

/-- C3: for each supported backend and any 32-byte key, decrypt of encrypt
under the same key returns the plaintext exactly (any string, including the
empty and multi-byte ones); decrypting with a different key or a tampered
ciphertext fails closed with the backend's distinguishable error. -/
theorem cipher_roundtrip_and_fail_closed (k k2 : List Nat) (nonce : Nat)
    (m s : String) (hk : k.length = 32) :
    fernet_decrypt k (fernet_encrypt k nonce m) = Except.ok m ∧
    chacha_decrypt k (chacha_encrypt k nonce m) = Except.ok m ∧
    (k2 ≠ k →
      fernet_decrypt k2 (fernet_encrypt k nonce m) =
        Except.error VErr.invalidToken) ∧
    (k2 ≠ k →
      chacha_decrypt k2 (chacha_encrypt k nonce m) =
        Except.error VErr.decryptError) ∧
    fernet_decrypt k (CText.junk s) = Except.error VErr.invalidToken ∧
    chacha_decrypt k (CText.junk s) = Except.error VErr.decryptError := by
  refine ⟨?_, ?_, ?_, ?_, rfl, rfl⟩
  · simp [fernet_decrypt, fernet_encrypt]
  · simp [chacha_decrypt, chacha_encrypt]
  · intro hne
    simp [fernet_decrypt, fernet_encrypt, hne.symm]
  · intro hne
    simp [chacha_decrypt, chacha_encrypt, hne.symm]

/-- Witness for C3 at a concrete 32-byte key, a different 32-byte key, a
multi-byte plaintext and a tampered string. -/
theorem cipher_roundtrip_and_fail_closed_witness :
    (List.replicate 32 5).length = 32 ∧
    fernet_decrypt (List.replicate 32 5)
        (fernet_encrypt (List.replicate 32 5) 0 "héllo ✓") = Except.ok "héllo ✓" ∧
    chacha_decrypt (List.replicate 32 5)
        (chacha_encrypt (List.replicate 32 5) 0 "héllo ✓") = Except.ok "héllo ✓" ∧
    fernet_decrypt (List.replicate 32 6)
        (fernet_encrypt (List.replicate 32 5) 0 "héllo ✓") =
      Except.error VErr.invalidToken ∧
    chacha_decrypt (List.replicate 32 6)
        (chacha_encrypt (List.replicate 32 5) 0 "héllo ✓") =
      Except.error VErr.decryptError ∧
    fernet_decrypt (List.replicate 32 5) (CText.junk "tampered") =
      Except.error VErr.invalidToken ∧
    chacha_decrypt (List.replicate 32 5) (CText.junk "tampered") =
      Except.error VErr.decryptError := by
  have h := cipher_roundtrip_and_fail_closed (List.replicate 32 5)
    (List.replicate 32 6) 0 "héllo ✓" "tampered" (by decide)
  exact ⟨by decide, h.1, h.2.1, h.2.2.1 (by decide), h.2.2.2.1 (by decide),
    h.2.2.2.2.1, h.2.2.2.2.2⟩

/-- Translation of the state transformation of `register_user` (vault.py
lines 168-193).  The interactive reads (`input(...).strip()`,
`getpass(...).strip()`) become the `name` and `token` parameters, already
stripped of surrounding whitespace at the prompt; the freshly
generated 32-byte key `secrets.token_bytes(32)` becomes the `raw_key`
parameter; the `now_iso()` timestamps become `now`.  An empty name or token
aborts with the keystore unchanged.  Note the `keys` record is rebuilt with
a base64 encoding of the fresh key: only `algo_history` is carried over from
any prior record for the same name. -/
def register_user (ks : Keystore) (name token : String)
    (raw_key : List Nat) (now : String) : Keystore :=
  if name = "" then ks
  else
    if token = "" then ks
    else
      let fp_h := hash_fp token
      let users2 := assocSet ks.users name { fp_hash := fp_h, created := now }
      let enc_key := b64encode raw_key
      let oldHistory := ((assocGet? ks.keys name).map KeyInfo.algo_history).getD []
      let keys2 := assocSet ks.keys name
        { enc_key := some enc_key, algo_history := oldHistory, created := now }
      { ks with users := users2, keys := keys2 }

/-- The Python `for name, info in ks.get('users', {}).items(): if
info.get('fp_hash') == fp_h: return name` scan of `authenticate_user`
(vault.py lines 209-212): first entry, in insertion order, whose stored hash
equals the supplied one. -/
def findUserByHash : List (String × UserInfo) → FpHash → Option String
  | [], _ => none
  | (name, info) :: rest, h =>
    if info.fp_hash = h then some name else findUserByHash rest h

/-- Translation of `authenticate_user` (vault.py lines 196-215) on an
already decrypted keystore: the `token` parameter is the
`getpass(...).strip()` read, already stripped at the prompt; the result is
the matched username (if any) paired with the audit-log lines the call
appends.  An empty token is rejected before hashing, with no audit entry
(vault.py lines 205-207); otherwise a match appends
"AUTH success user=<name>" and a miss appends "AUTH failed"; the token never
appears in either line. -/
def authenticate_user (ks : Keystore) (token : String) :
    Option String × List String :=
  if token = "" then (none, [])
  else
    let fp_h := hash_fp token
    match findUserByHash ks.users fp_h with
    | some name => (some name, ["AUTH success user=" ++ name])
    | none => (none, ["AUTH failed"])

theorem assocGet?_assocSet_self {α : Type} (l : List (String × α))
    (key : String) (v : α) : assocGet? (assocSet l key v) key = some v := by
  induction l with
  | nil => simp [assocSet, assocGet?]
  | cons p rest ih =>
    obtain ⟨k, w⟩ := p
    by_cases hk : k = key
    · subst hk
      simp [assocSet, assocGet?]
    · simp [assocSet, assocGet?, hk, ih]

/-- Counterexample to C5: a keystore whose user "owner" already holds the
raw key `replicate 32 0`; re-registering "owner" (fresh generated key
`replicate 32 1`) replaces the stored `enc_key` with the new key, so the
per-user raw key is not preserved. -/
def ks5 : Keystore :=
  { users := [("owner", { fp_hash := hash_fp "t1", created := "2024-01-01" })],
    keys := [("owner",
      { enc_key := some (b64encode (List.replicate 32 0)),
        algo_history := ["fernet"], created := "2024-01-01" })],
    current_algo := "fernet", rotation_history := [] }

/-- C5 counterexample: after re-registration the stored `enc_key` of
"owner" equals the encoding of the freshly generated key, which differs from
the previously stored one. -/
theorem register_user_replaces_enc_key_cex :
    (assocGet? ks5.keys "owner").map KeyInfo.enc_key =
      some (some (b64encode (List.replicate 32 0))) ∧
    (assocGet? (register_user ks5 "owner" "t1" (List.replicate 32 1)
        "2024-01-02").keys "owner").map KeyInfo.enc_key =
      some (some (b64encode (List.replicate 32 1))) ∧
    b64encode (List.replicate 32 1) ≠ b64encode (List.replicate 32 0) := by
  refine ⟨rfl, ?_, by decide⟩
  rfl

/-- C5 amended: re-registering an existing user replaces the user metadata
(fingerprint hash and timestamps) and replaces the stored `enc_key` with the
freshly generated key; only the `algo_history` of the prior key record is
preserved across re-registration. -/
theorem register_user_replaces_key_preserves_history (ks : Keystore)
    (name token : String) (raw_key : List Nat) (now : String)
    (hn : name ≠ "") (ht : token ≠ "") :
    assocGet? (register_user ks name token raw_key now).users name =
      some { fp_hash := hash_fp token, created := now } ∧
    assocGet? (register_user ks name token raw_key now).keys name =
      some { enc_key := some (b64encode raw_key),
             algo_history :=
               ((assocGet? ks.keys name).map KeyInfo.algo_history).getD [],
             created := now } := by
  unfold register_user
  simp only [hn, ht, if_neg]
  exact ⟨assocGet?_assocSet_self .., assocGet?_assocSet_self ..⟩

/-- Witness for amended C5 at the concrete keystore `ks5`. -/
theorem register_user_replaces_key_preserves_history_witness :
    ("owner" : String) ≠ "" ∧ ("t1" : String) ≠ "" ∧
    (assocGet? (register_user ks5 "owner" "t1" (List.replicate 32 1)
        "2024-01-02").users "owner" =
      some { fp_hash := hash_fp "t1", created := "2024-01-02" } ∧
    assocGet? (register_user ks5 "owner" "t1" (List.replicate 32 1)
        "2024-01-02").keys "owner" =
      some { enc_key := some (b64encode (List.replicate 32 1)),
             algo_history :=
               ((assocGet? ks5.keys "owner").map
                 KeyInfo.algo_history).getD [],
             created := "2024-01-02" }) :=
  ⟨by decide, by decide,
    register_user_replaces_key_preserves_history ks5 "owner" "t1"
      (List.replicate 32 1) "2024-01-02" (by decide) (by decide)⟩

theorem findUserByHash_eq_none_iff (l : List (String × UserInfo))
    (h : FpHash) :
    findUserByHash l h = none ↔ ∀ p ∈ l, p.2.fp_hash ≠ h := by
  induction l with
  | nil => simp [findUserByHash]
  | cons p rest ih =>
    obtain ⟨name, info⟩ := p
    by_cases hf : info.fp_hash = h
    · simp [findUserByHash, hf]
    · simp [findUserByHash, hf, ih]

theorem findUserByHash_eq_some (l : List (String × UserInfo)) (h : FpHash)
    (name : String) (hx : findUserByHash l h = some name) :
    ∃ l1 info l2, l = l1 ++ (name, info) :: l2 ∧ info.fp_hash = h ∧
      ∀ p ∈ l1, p.2.fp_hash ≠ h := by
  induction l with
  | nil => simp [findUserByHash] at hx
  | cons p rest ih =>
    obtain ⟨n0, info0⟩ := p
    by_cases hf : info0.fp_hash = h
    · simp [findUserByHash, hf] at hx
      subst hx
      exact ⟨[], info0, rest, rfl, hf, by simp⟩
    · simp [findUserByHash, hf] at hx
      obtain ⟨l1, info, l2, heq, hh, hnone⟩ := ih hx
      refine ⟨(n0, info0) :: l1, info, l2, by rw [heq]; rfl, hh, ?_⟩
      intro p hp
      rcases List.mem_cons.mp hp with h1 | h1
      · rw [h1]
        exact hf
      · exact hnone p h1

/-- Keystore for the C8 counterexample: it holds a user whose stored hash is
the hash of the empty token (an arbitrary state, as the claim quantifies
over every keystore state). -/
def ks8 : Keystore :=
  { users := [("ghost", { fp_hash := hash_fp "", created := "2024-01-01" })],
    keys := [], current_algo := "fernet", rotation_history := [] }

/-- C8 counterexample: with the empty token supplied, `authenticate_user`
returns no match and appends no audit line at all, even on a keystore whose
first user's stored hash equals the hash of that token — contradicting both
the first-matching-username clause and the clause that failed
authentications are recorded to the audit log. -/
theorem authenticate_user_empty_token_cex :
    (ks8.users.head?.map (fun p => p.2.fp_hash)) = some (hash_fp "") ∧
    authenticate_user ks8 "" = (none, []) := by
  exact ⟨rfl, rfl⟩

/-- C8 amended: for every keystore state and every non-empty supplied token,
`authenticate_user` hashes the token and scans the registered users in
insertion order by exact hash match, returning the first matching username
or no match; a match appends exactly "AUTH success user=<name>" to the audit
log and a miss appends exactly "AUTH failed" (the token itself appears in
neither).  An empty token is rejected before hashing with no scan and no
audit entry. -/
theorem authenticate_user_spec (ks : Keystore) (token : String)
    (h : token ≠ "") :
    (∀ name, (authenticate_user ks token).1 = some name →
      ∃ l1 info l2, ks.users = l1 ++ (name, info) :: l2 ∧
        info.fp_hash = hash_fp token ∧
        ∀ p ∈ l1, p.2.fp_hash ≠ hash_fp token) ∧
    ((authenticate_user ks token).1 = none ↔
      ∀ p ∈ ks.users, p.2.fp_hash ≠ hash_fp token) ∧
    ((authenticate_user ks token).2 =
      match (authenticate_user ks token).1 with
      | some name => ["AUTH success user=" ++ name]
      | none => ["AUTH failed"]) ∧
    authenticate_user ks "" = (none, []) := by
  have hdef : authenticate_user ks token =
      (match findUserByHash ks.users (hash_fp token) with
      | some name => (some name, ["AUTH success user=" ++ name])
      | none => (none, ["AUTH failed"])) := by
    unfold authenticate_user
    rw [if_neg h]
  refine ⟨?_, ?_, ?_, rfl⟩
  · intro name hname
    rw [hdef] at hname
    rcases hfind : findUserByHash ks.users (hash_fp token) with _ | n
    · rw [hfind] at hname
      simp at hname
    · rw [hfind] at hname
      simp at hname
      subst hname
      exact findUserByHash_eq_some ks.users (hash_fp token) n hfind
  · rw [hdef]
    rcases hfind : findUserByHash ks.users (hash_fp token) with _ | n
    · constructor
      · intro _
        exact (findUserByHash_eq_none_iff ks.users (hash_fp token)).mp hfind
      · intro _
        rfl
    · constructor
      · intro hcontr
        simp at hcontr
      · intro hall
        have hnone := (findUserByHash_eq_none_iff ks.users (hash_fp token)).mpr hall
        rw [hnone] at hfind
        exact Option.noConfusion hfind
  · rw [hdef]
    rcases hfind : findUserByHash ks.users (hash_fp token) with _ | n <;> rfl

/-- Concrete two-user keystore built through `register_user`, for the C8
witness (users "U1"/"T1" and "U2"/"T2"). -/
def ksW8 : Keystore :=
  register_user
    (register_user defaultKeystore "U1" "T1" (List.replicate 32 1) "2024-01-01")
    "U2" "T2" (List.replicate 32 2) "2024-01-02"

/-- Witness for amended C8, instantiated at the registered token "T1". -/
theorem authenticate_user_spec_witness :
    ("T1" : String) ≠ "" ∧
    ((∀ name, (authenticate_user ksW8 "T1").1 = some name →
      ∃ l1 info l2, ksW8.users = l1 ++ (name, info) :: l2 ∧
        info.fp_hash = hash_fp "T1" ∧
        ∀ p ∈ l1, p.2.fp_hash ≠ hash_fp "T1") ∧
    ((authenticate_user ksW8 "T1").1 = none ↔
      ∀ p ∈ ksW8.users, p.2.fp_hash ≠ hash_fp "T1") ∧
    ((authenticate_user ksW8 "T1").2 =
      match (authenticate_user ksW8 "T1").1 with
      | some name => ["AUTH success user=" ++ name]
      | none => ["AUTH failed"]) ∧
    authenticate_user ksW8 "" = (none, [])) :=
  ⟨by decide, authenticate_user_spec ksW8 "T1" (by decide)⟩

/-- Translation of the state transformation of `rotate_algorithm` (vault.py
lines 234-247) on an already decrypted keystore: `secrets.choice` becomes
the `choice` parameter and `now_iso()` becomes `now`.  When no alternative
algorithm exists the function reports and returns with the keystore
unchanged (and unsaved); otherwise it updates `current_algo` and appends one
`{when, from, to}` entry to `rotation_history`. -/
def rotate_algorithm (ks : Keystore) (choice : List String → String)
    (now : String) : Keystore :=
  let current := ks.current_algo
  let choices := ALGORITHMS.filter (fun a => decide (a ≠ current))
  if choices = [] then ks
  else
    let new_algo := choice choices
    { ks with
      current_algo := new_algo,
      rotation_history := ks.rotation_history ++
        [{ when_ := now, from_ := current, to_ := new_algo }] }

theorem rotate_choices_ne_nil (current : String) :
    ALGORITHMS.filter (fun a => decide (a ≠ current)) ≠ [] := by
  by_cases h1 : current = "fernet"
  · subst h1
    decide
  · have hm : "fernet" ∈ ALGORITHMS.filter (fun a => decide (a ≠ current)) :=
      List.mem_filter.mpr ⟨by decide, decide_eq_true (Ne.symm h1)⟩
    exact List.ne_nil_of_mem hm

theorem rotate_algorithm_eq (ks : Keystore) (choice : List String → String)
    (now : String) :
    rotate_algorithm ks choice now =
      { ks with
        current_algo :=
          choice (ALGORITHMS.filter (fun a => decide (a ≠ ks.current_algo))),
        rotation_history := ks.rotation_history ++
          [{ when_ := now, from_ := ks.current_algo,
             to_ := choice (ALGORITHMS.filter (fun a => decide (a ≠ ks.current_algo))) }] } := by
  unfold rotate_algorithm
  rw [if_neg (rotate_choices_ne_nil ks.current_algo)]

/-- C6: `rotate_algorithm` reads `current_algo` and computes the supported
algorithms excluding it; when that list is empty the call is a no-op leaving
the keystore unchanged, and otherwise the selected new `current_algo` comes
from that list (hence differs from the old one and is supported), exactly
one `{when, from, to}` entry is appended to `rotation_history`, and the rest
of the keystore is untouched. -/
theorem rotate_algorithm_spec (ks : Keystore) (choice : List String → String)
    (now : String) (hch : ∀ l : List String, l ≠ [] → choice l ∈ l) :
    (ALGORITHMS.filter (fun a => decide (a ≠ ks.current_algo)) = [] →
      rotate_algorithm ks choice now = ks) ∧
    (ALGORITHMS.filter (fun a => decide (a ≠ ks.current_algo)) ≠ [] →
      (rotate_algorithm ks choice now).current_algo ∈
        ALGORITHMS.filter (fun a => decide (a ≠ ks.current_algo)) ∧
      (rotate_algorithm ks choice now).current_algo ≠ ks.current_algo ∧
      (rotate_algorithm ks choice now).current_algo ∈ ALGORITHMS ∧
      (rotate_algorithm ks choice now).rotation_history =
        ks.rotation_history ++
          [{ when_ := now, from_ := ks.current_algo,
             to_ := (rotate_algorithm ks choice now).current_algo }] ∧
      (rotate_algorithm ks choice now).users = ks.users ∧
      (rotate_algorithm ks choice now).keys = ks.keys) := by
  constructor
  · intro hempty
    unfold rotate_algorithm
    rw [if_pos hempty]
  · intro hne
    rw [rotate_algorithm_eq]
    have hmem := hch _ hne
    have hfilter := List.mem_filter.mp hmem
    exact ⟨hmem, of_decide_eq_true hfilter.2, hfilter.1, rfl, rfl, rfl⟩

/-- Deterministic stand-in for `secrets.choice` used by the witnesses: the
first element of the list of alternatives. -/
def headChoice (l : List String) : String := l.headD ""

theorem headChoice_mem (l : List String) (h : l ≠ []) : headChoice l ∈ l := by
  cases l with
  | nil => exact absurd rfl h
  | cons a t => exact List.mem_cons_self a t

/-- Witness for C6 at the fresh keystore with the deterministic choice
source. -/
theorem rotate_algorithm_spec_witness :
    (ALGORITHMS.filter (fun a => decide (a ≠ defaultKeystore.current_algo)) = [] →
      rotate_algorithm defaultKeystore headChoice "2024-01-01" = defaultKeystore) ∧
    (ALGORITHMS.filter (fun a => decide (a ≠ defaultKeystore.current_algo)) ≠ [] →
      (rotate_algorithm defaultKeystore headChoice "2024-01-01").current_algo ∈
        ALGORITHMS.filter (fun a => decide (a ≠ defaultKeystore.current_algo)) ∧
      (rotate_algorithm defaultKeystore headChoice "2024-01-01").current_algo ≠
        defaultKeystore.current_algo ∧
      (rotate_algorithm defaultKeystore headChoice "2024-01-01").current_algo ∈
        ALGORITHMS ∧
      (rotate_algorithm defaultKeystore headChoice "2024-01-01").rotation_history =
        defaultKeystore.rotation_history ++
          [{ when_ := "2024-01-01", from_ := defaultKeystore.current_algo,
             to_ := (rotate_algorithm defaultKeystore headChoice
               "2024-01-01").current_algo }] ∧
      (rotate_algorithm defaultKeystore headChoice "2024-01-01").users =
        defaultKeystore.users ∧
      (rotate_algorithm defaultKeystore headChoice "2024-01-01").keys =
        defaultKeystore.keys) :=
  rotate_algorithm_spec defaultKeystore headChoice "2024-01-01"
    (fun l h => headChoice_mem l h)

/-- Outcome of N successive `rotate_algorithm` calls (each call in the
program reloads exactly the keystore the previous call saved, so composing
the state transformations is the reference behavior); rotation i uses
randomness `choice i` and timestamp `times i`. -/
def rotateN (choice : Nat → List String → String) (times : Nat → String) :
    Nat → Keystore → Keystore
  | 0, ks => ks
  | n + 1, ks =>
    rotate_algorithm (rotateN choice times n ks) (choice n) (times n)

/-- Chaining predicate of C7: starting from algorithm `a`, each entry's
`from` equals the previous entry's `to`, the first entry's `from` being `a`. -/
def chainedFrom : String → List RotEntry → Bool
  | _, [] => true
  | a, e :: rest => (e.from_ == a) && chainedFrom e.to_ rest

/-- Algorithm reached after a history `l` that started from `a`: the last
entry's `to`, or `a` when the history is empty. -/
def lastToD (a : String) (l : List RotEntry) : String :=
  (l.getLast?).elim a RotEntry.to_

theorem lastToD_append (a : String) (l : List RotEntry) (e : RotEntry) :
    lastToD a (l ++ [e]) = e.to_ := by
  simp [lastToD, List.getLast?_concat]

theorem lastToD_cons (a : String) (e0 : RotEntry) (rest : List RotEntry) :
    lastToD a (e0 :: rest) = lastToD e0.to_ rest := by
  cases rest with
  | nil => simp [lastToD]
  | cons e1 t =>
    unfold lastToD
    rw [List.getLast?_cons_cons]
    cases hx : (e1 :: t).getLast? with
    | none =>
      rw [List.getLast?_eq_none_iff] at hx
      exact absurd hx (by simp)
    | some x => rfl

theorem chainedFrom_append (a : String) (l : List RotEntry) (e : RotEntry)
    (h1 : chainedFrom a l = true) (h2 : e.from_ = lastToD a l) :
    chainedFrom a (l ++ [e]) = true := by
  induction l generalizing a with
  | nil =>
    simp [lastToD] at h2
    simp [chainedFrom, h2]
  | cons e0 rest ih =>
    rw [lastToD_cons] at h2
    simp only [chainedFrom, Bool.and_eq_true] at h1
    simp only [List.cons_append, chainedFrom, Bool.and_eq_true]
    exact ⟨h1.1, ih e0.to_ h1.2 h2⟩

theorem rotate_algorithm_invariant (ks : Keystore)
    (choice : List String → String) (now : String)
    (hch : ∀ l : List String, l ≠ [] → choice l ∈ l) (a : String)
    (h1 : chainedFrom a ks.rotation_history = true)
    (h2 : ks.current_algo = lastToD a ks.rotation_history) :
    chainedFrom a (rotate_algorithm ks choice now).rotation_history = true ∧
    (rotate_algorithm ks choice now).current_algo =
      lastToD a (rotate_algorithm ks choice now).rotation_history ∧
    (rotate_algorithm ks choice now).rotation_history.length =
      ks.rotation_history.length + 1 := by
  rw [rotate_algorithm_eq]
  refine ⟨?_, ?_, by simp⟩
  · exact chainedFrom_append a ks.rotation_history _ h1 h2
  · simp [lastToD_append]

theorem rotateN_invariant (choice : Nat → List String → String)
    (times : Nat → String)
    (hch : ∀ i (l : List String), l ≠ [] → choice i l ∈ l)
    (ks : Keystore) (a : String)
    (h1 : chainedFrom a ks.rotation_history = true)
    (h2 : ks.current_algo = lastToD a ks.rotation_history) (N : Nat) :
    chainedFrom a (rotateN choice times N ks).rotation_history = true ∧
    (rotateN choice times N ks).current_algo =
      lastToD a (rotateN choice times N ks).rotation_history ∧
    (rotateN choice times N ks).rotation_history.length =
      ks.rotation_history.length + N := by
  induction N with
  | zero => exact ⟨h1, h2, rfl⟩
  | succ n ih =>
    obtain ⟨i1, i2, i3⟩ := ih
    have hstep := rotate_algorithm_invariant (rotateN choice times n ks)
      (choice n) (times n) (hch n) a i1 i2
    refine ⟨hstep.1, hstep.2.1, ?_⟩
    show (rotate_algorithm (rotateN choice times n ks) (choice n)
      (times n)).rotation_history.length = ks.rotation_history.length + (n + 1)
    rw [hstep.2.2, i3]
    omega

/-- C7: after N ≥ 1 rotations from the fresh keystore, `rotation_history`
has length N, each entry's `from` equals the previous entry's `to` (the
first entry's `from` being the initial algorithm), and `current_algo`
equals the last entry's `to`. -/
theorem rotation_history_chain (N : Nat)
    (choice : Nat → List String → String) (times : Nat → String)
    (hch : ∀ i (l : List String), l ≠ [] → choice i l ∈ l) (hN : 1 ≤ N) :
    (rotateN choice times N defaultKeystore).rotation_history.length = N ∧
    chainedFrom defaultKeystore.current_algo
      (rotateN choice times N defaultKeystore).rotation_history = true ∧
    ∃ e, (rotateN choice times N defaultKeystore).rotation_history.getLast? =
        some e ∧
      (rotateN choice times N defaultKeystore).current_algo = e.to_ := by
  obtain ⟨h1, h2, h3⟩ := rotateN_invariant choice times hch defaultKeystore
    defaultKeystore.current_algo rfl rfl N
  have hlen : (rotateN choice times N defaultKeystore).rotation_history.length
      = N := by
    rw [h3]
    simp [defaultKeystore]
  refine ⟨hlen, h1, ?_⟩
  cases hx : (rotateN choice times N defaultKeystore).rotation_history.getLast?
    with
  | none =>
    rw [List.getLast?_eq_none_iff] at hx
    rw [hx] at hlen
    simp at hlen
    omega
  | some e =>
    refine ⟨e, rfl, ?_⟩
    rw [lastToD, hx] at h2
    exact h2

/-- Witness for C7 at N = 2 with the deterministic choice source. -/
theorem rotation_history_chain_witness :
    (rotateN (fun _ => headChoice) (fun _ => "2024-01-01") 2
      defaultKeystore).rotation_history.length = 2 ∧
    chainedFrom defaultKeystore.current_algo
      (rotateN (fun _ => headChoice) (fun _ => "2024-01-01") 2
        defaultKeystore).rotation_history = true ∧
    ∃ e, (rotateN (fun _ => headChoice) (fun _ => "2024-01-01") 2
        defaultKeystore).rotation_history.getLast? = some e ∧
      (rotateN (fun _ => headChoice) (fun _ => "2024-01-01") 2
        defaultKeystore).current_algo = e.to_ :=
  rotation_history_chain 2 (fun _ => headChoice) (fun _ => "2024-01-01")
    (fun _ l h => headChoice_mem l h) (by decide)

/-- Translation of `_get_raw_key_for_user` (vault.py lines 221-231):
missing entry, missing/empty `enc_key` and base64 decode failure all return
`none` rather than raising. -/
def _get_raw_key_for_user (ks : Keystore) (username : String) :
    Option (List Nat) :=
  match assocGet? ks.keys username with
  | none => none
  | some entry =>
    match entry.enc_key with
    | none => none
    | some b => b64decode b

/-- Translation of the cipher-dispatch core of `encrypt_for_user` (vault.py
lines 287-316), after authentication and keystore load: the algorithm is
chosen by the live `current_algo`, and the plaintext input and encryption
randomness are parameters. -/
def encrypt_for_user_core (ks : Keystore) (user : String) (nonce : Nat)
    (plaintext : String) : Except VErr CText :=
  match _get_raw_key_for_user ks user with
  | none => Except.error VErr.missingKey
  | some raw_key =>
    if ks.current_algo = "fernet" then
      Except.ok (fernet_encrypt raw_key nonce plaintext)
    else if ks.current_algo = "chacha20" then
      Except.ok (chacha_encrypt raw_key nonce plaintext)
    else Except.error VErr.unsupportedAlgo

/-- Translation of the cipher-dispatch core of `decrypt_for_user` (vault.py
lines 319-354), after authentication and keystore load: the algorithm is
selected from the live `current_algo` field of the keystore — no algorithm
tag is read from the ciphertext. -/
def decrypt_for_user_core (ks : Keystore) (user : String) (ct : CText) :
    Except VErr String :=
  match _get_raw_key_for_user ks user with
  | none => Except.error VErr.missingKey
  | some raw_key =>
    if ks.current_algo = "fernet" then fernet_decrypt raw_key ct
    else if ks.current_algo = "chacha20" then chacha_decrypt raw_key ct
    else Except.error VErr.unsupportedAlgo

theorem rotate_algorithm_keys_eq (ks : Keystore)
    (choice : List String → String) (now : String) :
    (rotate_algorithm ks choice now).keys = ks.keys := by
  unfold rotate_algorithm
  by_cases hempty :
    ALGORITHMS.filter (fun a => decide (a ≠ ks.current_algo)) = []
  · rw [if_pos hempty]
  · rw [if_neg hempty]

/-- C4: `decrypt_for_user` dispatches on the live `current_algo`, so any
ciphertext produced through the encrypt path under the pre-rotation
algorithm fails to decrypt after a rotation (which always moves to the other
supported algorithm), even though the user's stored raw key is unchanged
by the rotation. -/
theorem decrypt_after_rotation_fails (ks : Keystore) (user : String)
    (nonce : Nat) (plaintext : String) (ct : CText)
    (choice : List String → String) (now : String)
    (hch : ∀ l : List String, l ≠ [] → choice l ∈ l)
    (hcur : ks.current_algo ∈ ALGORITHMS)
    (henc : encrypt_for_user_core ks user nonce plaintext = Except.ok ct) :
    _get_raw_key_for_user (rotate_algorithm ks choice now) user =
      _get_raw_key_for_user ks user ∧
    ∃ e, decrypt_for_user_core (rotate_algorithm ks choice now) user ct =
      Except.error e := by
  have hkeys : _get_raw_key_for_user (rotate_algorithm ks choice now) user =
      _get_raw_key_for_user ks user := by
    unfold _get_raw_key_for_user
    rw [rotate_algorithm_keys_eq]
  refine ⟨hkeys, ?_⟩
  obtain ⟨raw_key, hraw⟩ : ∃ k, _get_raw_key_for_user ks user = some k := by
    rcases hk : _get_raw_key_for_user ks user with _ | k
    · unfold encrypt_for_user_core at henc
      rw [hk] at henc
      exact Except.noConfusion henc
    · exact ⟨k, rfl⟩
  have hnewalgo := hch _ (rotate_choices_ne_nil ks.current_algo)
  have hrotcur : (rotate_algorithm ks choice now).current_algo =
      choice (ALGORITHMS.filter (fun a => decide (a ≠ ks.current_algo))) := by
    rw [rotate_algorithm_eq]
  have hmem := List.mem_filter.mp hnewalgo
  have hne : choice (ALGORITHMS.filter (fun a => decide (a ≠ ks.current_algo)))
      ≠ ks.current_algo := of_decide_eq_true hmem.2
  unfold encrypt_for_user_core at henc
  rw [hraw] at henc
  unfold decrypt_for_user_core
  rw [hkeys, hraw]
  rcases List.mem_pair.mp hcur with hf | hc
  · have hct : ct = fernet_encrypt raw_key nonce plaintext := by
      rw [hf] at henc
      simp at henc
      exact henc.symm
    have hnew : (rotate_algorithm ks choice now).current_algo = "chacha20" := by
      rw [hrotcur]
      rcases List.mem_pair.mp hmem.1 with h2 | h2
      · exact absurd (h2.trans hf.symm) hne
      · exact h2
    rw [hnew, hct]
    exact ⟨VErr.decryptError, rfl⟩
  · have hct : ct = chacha_encrypt raw_key nonce plaintext := by
      rw [hc] at henc
      simp at henc
      exact henc.symm
    have hnew : (rotate_algorithm ks choice now).current_algo = "fernet" := by
      rw [hrotcur]
      rcases List.mem_pair.mp hmem.1 with h2 | h2
      · exact h2
      · exact absurd (h2.trans hc.symm) hne
    rw [hnew, hct]
    exact ⟨VErr.invalidToken, rfl⟩

/-- Keystore for the C4 witness: one registered user "alice" holding a
32-byte raw key, current algorithm "fernet". -/
def ks4 : Keystore :=
  register_user defaultKeystore "alice" "tok-123" (List.replicate 32 3)
    "2024-01-01"

/-- Witness for C4: encrypt "hello world" for "alice" under "fernet", then
rotate; the decrypt path now dispatches to the other algorithm and fails,
while the stored raw key is unchanged. -/
theorem decrypt_after_rotation_fails_witness :
    _get_raw_key_for_user (rotate_algorithm ks4 headChoice "2024-01-02")
      "alice" = _get_raw_key_for_user ks4 "alice" ∧
    ∃ e, decrypt_for_user_core (rotate_algorithm ks4 headChoice "2024-01-02")
      "alice"
      (fernet_encrypt (List.replicate 32 3) 0 "hello world") =
      Except.error e :=
  decrypt_after_rotation_fails ks4 "alice" 0 "hello world"
    (fernet_encrypt (List.replicate 32 3) 0 "hello world")
    headChoice "2024-01-02" (fun l h => headChoice_mem l h)
    (by decide) (by rfl)

/-- C9: one session derives the master key after `_ensure_salt` (generating
and persisting a fresh 16-byte salt only when no salt file exists); a second
session re-running `_ensure_salt` on the persisted file reads the same salt
unchanged, so the derived key is identical across the two runs, while
deriving with a different salt yields a different key. -/
theorem derive_master_key_deterministic (passphrase : String)
    (saltFile : Option (List Nat)) (r1 r2 : Nat → Nat) :
    derive_master_key passphrase (_ensure_salt saltFile r1).1 =
      derive_master_key passphrase
        (_ensure_salt (_ensure_salt saltFile r1).2 r2).1 ∧
    (_ensure_salt (_ensure_salt saltFile r1).2 r2).2 =
      (_ensure_salt saltFile r1).2 ∧
    (∀ s1 s2 : List Nat, s1 ≠ s2 →
      derive_master_key passphrase s1 ≠ derive_master_key passphrase s2) ∧
    (∀ s, saltFile = some s → _ensure_salt saltFile r1 = (s, some s)) ∧
    (saltFile = none →
      (_ensure_salt saltFile r1).1.length = 16 ∧
      (_ensure_salt saltFile r1).2 = some (_ensure_salt saltFile r1).1) := by
  refine ⟨?_, ?_, ?_, ?_, ?_⟩
  · cases saltFile <;> rfl
  · cases saltFile <;> rfl
  · intro s1 s2 hne heq
    exact hne (by injection heq)
  · intro s hs
    rw [hs]
    rfl
  · intro hs
    rw [hs]
    exact ⟨by simp [_ensure_salt, token_bytes], rfl⟩

/-- Witness for C9 with no pre-existing salt file and two concrete
randomness sources. -/
theorem derive_master_key_deterministic_witness :
    derive_master_key "correct-horse" (_ensure_salt none (fun i => i)).1 =
      derive_master_key "correct-horse"
        (_ensure_salt (_ensure_salt none (fun i => i)).2 (fun i => i + 1)).1 ∧
    (_ensure_salt none (fun i => i)).1.length = 16 ∧
    derive_master_key "correct-horse" [0] ≠
      derive_master_key "correct-horse" [1] := by
  have h := derive_master_key_deterministic "correct-horse" none
    (fun i => i) (fun i => i + 1)
  exact ⟨h.1, (h.2.2.2.2 rfl).1, h.2.2.1 [0] [1] (by decide)⟩

end CipherVault
